import Mathlib

/-!
Verification of the foot-measurement pipeline in src/hwaelMain.cpp.

The program is a one-shot pipeline: skin mask, edge detection, contour
scan for the largest bounding rectangle (the foot), Hough circle scan for
the largest circle (the Toonie coin), then a centimetres-per-pixel scale
and the console report.  The library stages (blur, colour conversion,
Canny, findContours, HoughCircles) are treated as producers of the contour
bounding rectangles and of the detected circles; the arithmetic and the
selection loops written in the repository itself are embedded below.

Floating-point values are modelled by exact rationals, except where
IEEE-754 non-finite behaviour is itself the subject: the value type FVal
carries finite rationals together with the two infinities and NaN, and
the two operations the program performs on a possibly non-finite scale
(division producing it, multiplication by an integer pixel count) follow
the IEEE-754 rules for those inputs.
-/

namespace Hwael

/-- Rounding of a rational to the nearest integer, ties to the even
integer.  This models the OpenCV conversion cv::saturate_cast applied
when a Vec3f circle is bound to a Vec3i at line 83 of hwaelMain.cpp
(cvRound, round half to even). -/
def cvRound (q : ℚ) : ℤ :=
  if q - (⌊q⌋ : ℚ) < 1/2 then ⌊q⌋
  else if 1/2 < q - (⌊q⌋ : ℚ) then ⌊q⌋ + 1
  else if ⌊q⌋ % 2 = 0 then ⌊q⌋ else ⌊q⌋ + 1

/-- Truncation of a rational toward zero.  This is the claim-side
comparator for C10, which describes the float-to-int conversion as
truncation; the code actually rounds (see cvRound). -/
def ratTrunc (q : ℚ) : ℤ :=
  if 0 ≤ q then ⌊q⌋ else ⌈q⌉

/-- cv::Rect: top-left corner, width and height, all ints.  The default
constructor zero-initialises all four fields (line 59, Rect footRect). -/
structure Rect where
  x : ℤ
  y : ℤ
  width : ℤ
  height : ℤ
deriving DecidableEq

/-- Area of a rectangle as the program computes it at line 69:
width times height. -/
def Rect.area (r : Rect) : ℤ := r.width * r.height

/-- The running-maximum scan shared by the two selection loops of the
program: keep the current best, replace it exactly when the key of the
next element is strictly greater (lines 62-70 and 82-90 both use a
strict greater-than comparison against the running best). -/
def scanMax {α : Type} (key : α → ℤ) : α → List α → α
  | b, [] => b
  | b, x :: xs => scanMax key (if key b < key x then x else b) xs

/-- Lines 58-70: footRect starts as a default-constructed (all-zero)
cv::Rect and the loop keeps the bounding rectangle of strictly larger
width*height.  The input list holds the bounding rectangles of the
approximating polygons of the extracted contours, in contour order. -/
def footRect (rects : List Rect) : Rect :=
  scanMax Rect.area ⟨0, 0, 0, 0⟩ rects

/-- One circle returned by HoughCircles: a Vec3f holding the centre
coordinates and the radius as floats, modelled by exact rationals. -/
structure Circle where
  x : ℚ
  y : ℚ
  r : ℚ
deriving DecidableEq

/-- The integer pixel radius the loop body extracts at lines 83-85:
Vec3i c = circles[i]; int radius = c[2].  The Vec3f to Vec3i conversion
rounds each component with cvRound. -/
def Circle.intRadius (c : Circle) : ℤ := cvRound c.r

/-- The integer centre point built at line 84, after the same rounding
conversion. -/
def Circle.intCenter (c : Circle) : ℤ × ℤ := (cvRound c.x, cvRound c.y)

/-- Lines 74-90: int TooniePixelRadius = 0; for every detected circle,
if its integer radius is strictly greater than the running value, the
running value is replaced. -/
def tooniePixelRadius (cs : List Circle) : ℤ :=
  scanMax (fun z : ℤ => z) 0 (cs.map Circle.intRadius)

/-- A floating-point value: a finite rational, one of the two
infinities, or NaN. -/
inductive FVal where
  | fin (q : ℚ)
  | inf
  | ninf
  | nan
deriving DecidableEq

/-- Finiteness of an FVal. -/
def FVal.isFinite : FVal → Bool
  | .fin _ => true
  | _ => false

/-- IEEE-754 division of two finite values: finite quotient when the
divisor is non-zero, a signed infinity for a non-zero dividend over
zero, NaN for zero over zero. -/
def fdiv (a b : ℚ) : FVal :=
  if b = 0 then
    if a = 0 then .nan else if 0 < a then .inf else .ninf
  else .fin (a / b)

/-- IEEE-754 multiplication of an integer (converted to float) by a
possibly non-finite float: finite times finite is finite, zero times an
infinity is NaN, a non-zero integer times an infinity is a signed
infinity, and NaN propagates. -/
def fmulI (n : ℤ) (v : FVal) : FVal :=
  match v with
  | .fin q => .fin ((n : ℚ) * q)
  | .inf => if n = 0 then .nan else if 0 < n then .inf else .ninf
  | .ninf => if n = 0 then .nan else if 0 < n then .ninf else .inf
  | .nan => .nan

/-- Line 38: const float Toonie_RADIUS = 1.325 (centimetres). -/
def Toonie_RADIUS : ℚ := 53 / 40

/-- Line 93: pixels_per_metric = Toonie_RADIUS / TooniePixelRadius.
The int radius is converted to float and the division is floating
point, so a zero radius yields positive infinity. -/
def pixels_per_metric (cs : List Circle) : FVal :=
  fdiv Toonie_RADIUS ((tooniePixelRadius cs : ℤ) : ℚ)

/-- The console report printed at lines 108-118: the detected pixel
radius, the known physical radius, the scale, and the foot length and
width in pixels and in centimetres. -/
structure Report where
  toonieRadiusPx : ℤ
  toonieRadiusCm : ℚ
  cmPerPixel : FVal
  footLengthPx : ℤ
  footLengthCm : FVal
  footWidthPx : ℤ
  footWidthCm : FVal
deriving DecidableEq

/-- The whole measurement computation of main after the library calls:
select the foot rectangle (lines 58-70), select the Toonie radius
(lines 74-90), compute the scale (line 93), and print length and width
as footRect.height and footRect.width times the scale (lines 108-118). -/
def report (cs : List Circle) (rects : List Rect) : Report :=
  let fr := footRect rects
  let rad := tooniePixelRadius cs
  let ppm := fdiv Toonie_RADIUS ((rad : ℤ) : ℚ)
  { toonieRadiusPx := rad
    toonieRadiusCm := Toonie_RADIUS
    cmPerPixel := ppm
    footLengthPx := fr.height
    footLengthCm := fmulI fr.height ppm
    footWidthPx := fr.width
    footWidthCm := fmulI fr.width ppm }

/-- One drawing command issued onto the original raster. -/
inductive DrawCmd where
  | circleOutline (cx cy radius : ℤ)
  | rectOutline (r : Rect)
  | textLabel
deriving DecidableEq

/-- Everything the program draws onto bottomTestImage: one circle
outline per detected circle inside the selection loop (line 89), the
foot rectangle (line 96), and the caption text (line 103). -/
def drawOnOriginal (cs : List Circle) (rects : List Rect) : List DrawCmd :=
  (cs.map fun c => DrawCmd.circleOutline (cvRound c.x) (cvRound c.y) (cvRound c.r))
    ++ [DrawCmd.rectOutline (footRect rects), DrawCmd.textLabel]

/-- The parameters of the HoughCircles call. -/
structure HoughParams where
  dp : ℚ
  minDist : ℚ
  param1 : ℚ
  param2 : ℚ
  minRadius : ℤ
  maxRadius : ℤ
deriving DecidableEq

/-- Line 78: HoughCircles(gray, circles, HOUGH_GRADIENT, 1.5, 50, 150,
40, 0, 30) — accumulator ratio 1.5, minimum centre distance 50, Canny
threshold 150, accumulator threshold 40, minRadius 0, maxRadius 30. -/
def houghCallParams : HoughParams :=
  { dp := 3/2, minDist := 50, param1 := 150, param2 := 40
    minRadius := 0, maxRadius := 30 }

/-- The radius window the HoughCircles parameters configure: a radius
is admissible exactly when it lies between minRadius and maxRadius
(maxRadius is positive here, so it is an upper cap). -/
def radiusAccepted (p : HoughParams) (r : ℚ) : Bool :=
  decide ((p.minRadius : ℚ) ≤ r) && decide (r ≤ (p.maxRadius : ℚ))

/-- The four operations of the skin-mask stage. -/
inductive SkinStage where
  | gaussianBlur
  | convertToHSV
  | extractSaturation
  | thresholdToZero
deriving DecidableEq

/-- Lines 44-47 in program order: GaussianBlur on the colour input,
then cvtColor to HSV, then split and keep channel 1 (saturation), then
threshold with THRESH_TOZERO. -/
def skinMaskStages : List SkinStage :=
  [.gaussianBlur, .convertToHSV, .extractSaturation, .thresholdToZero]

/-- The stage order as the specification describes it for C7: convert
to HSV first, then blur, then extract saturation, then threshold.  This
is the claim-side comparator, modelled from the words of the spec. -/
def specSkinMaskStages : List SkinStage :=
  [.convertToHSV, .gaussianBlur, .extractSaturation, .thresholdToZero]

/-- Line 47: threshold(hsv, hsv, 45, 255, THRESH_TOZERO): a pixel value
is kept when strictly above the threshold and zeroed otherwise. -/
def threshToZero (t v : ℚ) : ℚ := if t < v then v else 0

/-- The threshold value 45 of line 47. -/
def skinThreshold : ℚ := 45

/-- The saturation channel index taken at line 46 (chann[1]). -/
def saturationChannelIndex : ℕ := 1

/-- The demonstration rectangle list used to instantiate C2. -/
def demoRects : List Rect := [⟨0, 0, 2, 3⟩, ⟨1, 1, 4, 5⟩, ⟨2, 2, 4, 5⟩]

/-- The demonstration circle lists used to instantiate C3: same radii,
different centre positions. -/
def demoCircles : List Circle := [⟨5, 5, 20⟩, ⟨50, 50, 10⟩]

/-- The same radii as demoCircles at other centre positions. -/
def demoCirclesMoved : List Circle := [⟨100, 7, 20⟩, ⟨3, 90, 10⟩]

/-- The strict running-maximum scan either keeps its seed, in which
case no element of the list has a strictly larger key, or returns the
first element attaining the maximum key: its key exceeds the seed, all
earlier elements have strictly smaller keys, and no element at all has
a larger key. -/
theorem scanMax_spec {α : Type} (key : α → ℤ) :
    ∀ (l : List α) (b : α),
      (scanMax key b l = b ∧ ∀ x ∈ l, key x ≤ key b) ∨
      (∃ i : Fin l.length, scanMax key b l = l.get i ∧ key b < key (l.get i) ∧
        (∀ j : Fin l.length, (j : ℕ) < (i : ℕ) → key (l.get j) < key (l.get i)) ∧
        (∀ j : Fin l.length, key (l.get j) ≤ key (l.get i))) := by
  intro l
  induction l with
  | nil =>
      intro b
      exact Or.inl ⟨rfl, by intro x hx; cases hx⟩
  | cons x xs ih =>
      intro b
      by_cases h : key b < key x
      · have hs : scanMax key b (x :: xs) = scanMax key x xs := by
          simp [scanMax, h]
        rcases ih x with ⟨he, hall⟩ | ⟨i, he, hlt, hearly, hle⟩
        · refine Or.inr ⟨⟨0, by simp⟩, ?_, ?_, ?_, ?_⟩
          · rw [hs, he]; rfl
          · exact h
          · intro j hj
            exact absurd hj (Nat.not_lt_zero _)
          · intro j
            rcases j with ⟨jv, hjlt⟩
            cases jv with
            | zero => exact le_refl _
            | succ k =>
                have hk : k < xs.length := Nat.lt_of_succ_lt_succ hjlt
                exact hall _ (xs.get_mem k hk)
        · refine Or.inr ⟨⟨i.val + 1, Nat.succ_lt_succ i.isLt⟩, ?_, ?_, ?_, ?_⟩
          · rw [hs, he]; rfl
          · exact lt_trans h hlt
          · intro j hj
            rcases j with ⟨jv, hjlt⟩
            cases jv with
            | zero => exact hlt
            | succ k =>
                have hk : k < xs.length := Nat.lt_of_succ_lt_succ hjlt
                exact hearly ⟨k, hk⟩ (Nat.lt_of_succ_lt_succ hj)
          · intro j
            rcases j with ⟨jv, hjlt⟩
            cases jv with
            | zero => exact le_of_lt hlt
            | succ k =>
                have hk : k < xs.length := Nat.lt_of_succ_lt_succ hjlt
                exact hle ⟨k, hk⟩
      · have hxb : key x ≤ key b := not_lt.mp h
        have hs : scanMax key b (x :: xs) = scanMax key b xs := by
          simp [scanMax, h]
        rcases ih b with ⟨he, hall⟩ | ⟨i, he, hlt, hearly, hle⟩
        · refine Or.inl ⟨hs.trans he, ?_⟩
          intro y hy
          rcases List.mem_cons.mp hy with hy | hy
          · rw [hy]; exact hxb
          · exact hall y hy
        · refine Or.inr ⟨⟨i.val + 1, Nat.succ_lt_succ i.isLt⟩, ?_, ?_, ?_, ?_⟩
          · rw [hs, he]; rfl
          · exact hlt
          · intro j hj
            rcases j with ⟨jv, hjlt⟩
            cases jv with
            | zero => exact lt_of_le_of_lt hxb hlt
            | succ k =>
                have hk : k < xs.length := Nat.lt_of_succ_lt_succ hjlt
                exact hearly ⟨k, hk⟩ (Nat.lt_of_succ_lt_succ hj)
          · intro j
            rcases j with ⟨jv, hjlt⟩
            cases jv with
            | zero => exact le_of_lt (lt_of_le_of_lt hxb hlt)
            | succ k =>
                have hk : k < xs.length := Nat.lt_of_succ_lt_succ hjlt
                exact hle ⟨k, hk⟩

/-- C2: for a list of contour bounding rectangles containing at least
one rectangle of positive area (every OpenCV bounding rectangle of a
nonempty contour has positive width and height), the selected foot
rectangle is the first-encountered rectangle of maximum area: every
earlier rectangle has strictly smaller area and no rectangle at all has
larger area, the comparison being strict greater-than. -/
theorem footRect_first_max (rects : List Rect)
    (hpos : ∃ r ∈ rects, 0 < r.area) :
    ∃ i : Fin rects.length, footRect rects = rects.get i ∧
      (∀ j : Fin rects.length, (j : ℕ) < (i : ℕ) →
        (rects.get j).area < (rects.get i).area) ∧
      (∀ j : Fin rects.length, (rects.get j).area ≤ (rects.get i).area) := by
  rcases scanMax_spec Rect.area rects ⟨0, 0, 0, 0⟩ with ⟨_, hall⟩ | ⟨i, he, _, hearly, hle⟩
  · rcases hpos with ⟨r, hr, hrpos⟩
    have hle0 : r.area ≤ Rect.area ⟨0, 0, 0, 0⟩ := hall r hr
    have h0 : Rect.area ⟨0, 0, 0, 0⟩ = 0 := rfl
    rw [h0] at hle0
    exact absurd (lt_of_lt_of_le hrpos hle0) (lt_irrefl 0)
  · exact ⟨i, he, hearly, hle⟩

/-- Closed instance of footRect_first_max on demoRects: the second
rectangle (area 20) is selected, the third of equal area is not. -/
theorem footRect_first_max_witness :
    ∃ i : Fin demoRects.length, footRect demoRects = demoRects.get i ∧
      (∀ j : Fin demoRects.length, (j : ℕ) < (i : ℕ) →
        (demoRects.get j).area < (demoRects.get i).area) ∧
      (∀ j : Fin demoRects.length, (demoRects.get j).area ≤ (demoRects.get i).area) :=
  footRect_first_max demoRects
    ⟨⟨0, 0, 2, 3⟩, by norm_num [demoRects, Rect.area]⟩

/-- The Toonie radius scan returns the integer radius of the first
circle attaining the maximum integer radius, given at least one circle
and nonnegative rounded radii (HoughCircles radii are nonnegative). -/
theorem tooniePixelRadius_spec (cs : List Circle) (hne : cs ≠ [])
    (hnn : ∀ c ∈ cs, 0 ≤ Circle.intRadius c) :
    ∃ i : Fin cs.length, tooniePixelRadius cs = Circle.intRadius (cs.get i) ∧
      (∀ j : Fin cs.length, (j : ℕ) < (i : ℕ) →
        Circle.intRadius (cs.get j) < Circle.intRadius (cs.get i)) ∧
      (∀ j : Fin cs.length, Circle.intRadius (cs.get j) ≤ Circle.intRadius (cs.get i)) := by
  have hlen : (cs.map Circle.intRadius).length = cs.length := List.length_map _ _
  have hget : ∀ (j : Fin (cs.map Circle.intRadius).length),
      (cs.map Circle.intRadius).get j =
        Circle.intRadius (cs.get ⟨j.val, hlen ▸ j.isLt⟩) := by
    intro j
    simp [List.get_eq_getElem, List.getElem_map]
  rcases scanMax_spec (fun z : ℤ => z) (cs.map Circle.intRadius) 0 with
    ⟨he, hall⟩ | ⟨i, he, _, hearly, hle⟩
  · have hpos : 0 < cs.length := List.length_pos.mpr hne
    have hres : tooniePixelRadius cs = 0 := he
    refine ⟨⟨0, hpos⟩, ?_, ?_, ?_⟩
    · have h1 : Circle.intRadius (cs.get ⟨0, hpos⟩) ≤ 0 :=
        hall _ (List.mem_map_of_mem _ (cs.get_mem 0 hpos))
      have h2 : 0 ≤ Circle.intRadius (cs.get ⟨0, hpos⟩) := hnn _ (cs.get_mem 0 hpos)
      rw [hres]
      omega
    · intro j hj
      exact absurd hj (Nat.not_lt_zero _)
    · intro j
      have h1 : Circle.intRadius (cs.get j) ≤ 0 :=
        hall _ (List.mem_map_of_mem _ (cs.get_mem j.1 j.2))
      have h2 : 0 ≤ Circle.intRadius (cs.get ⟨0, hpos⟩) := hnn _ (cs.get_mem 0 hpos)
      omega
  · refine ⟨⟨i.val, hlen ▸ i.isLt⟩, ?_, ?_, ?_⟩
    · have hres : tooniePixelRadius cs = (cs.map Circle.intRadius).get i := he
      rw [hres, hget i]
    · intro j hj
      have hj2 := hearly ⟨j.val, hlen.symm ▸ j.isLt⟩ hj
      rw [hget, hget] at hj2
      exact hj2
    · intro j
      have hj2 := hle ⟨j.val, hlen.symm ▸ j.isLt⟩
      rw [hget, hget] at hj2
      exact hj2

/-- C3: the coin pixel radius is the maximum integer radius over all
detected circles — the first circle attaining it, every earlier circle
having a strictly smaller radius, the comparison being strict
greater-than — and the centre positions play no role: a second list
with the same radii at any other positions yields the same value. -/
theorem tooniePixelRadius_max (cs cs2 : List Circle) (hne : cs ≠ [])
    (hnn : ∀ c ∈ cs, 0 ≤ Circle.intRadius c)
    (hsame : cs.map Circle.r = cs2.map Circle.r) :
    (∃ i : Fin cs.length, tooniePixelRadius cs = Circle.intRadius (cs.get i) ∧
      (∀ j : Fin cs.length, (j : ℕ) < (i : ℕ) →
        Circle.intRadius (cs.get j) < Circle.intRadius (cs.get i))) ∧
    (∀ c ∈ cs, Circle.intRadius c ≤ tooniePixelRadius cs) ∧
    tooniePixelRadius cs2 = tooniePixelRadius cs := by
  rcases tooniePixelRadius_spec cs hne hnn with ⟨i, he, hearly, hle⟩
  have hmapeq : cs.map Circle.intRadius = cs2.map Circle.intRadius := by
    have h1 : (cs.map Circle.r).map cvRound = (cs2.map Circle.r).map cvRound := by
      rw [hsame]
    rw [List.map_map, List.map_map] at h1
    exact h1
  refine ⟨⟨i, he, hearly⟩, ?_, ?_⟩
  · intro c hc
    rcases List.mem_iff_get.mp hc with ⟨j, hj⟩
    rw [he, ← hj]
    exact hle j
  · show scanMax (fun z : ℤ => z) 0 (cs2.map Circle.intRadius) =
      scanMax (fun z : ℤ => z) 0 (cs.map Circle.intRadius)
    rw [hmapeq]

/-- Closed instance of tooniePixelRadius_max on demoCircles and
demoCirclesMoved: radius 20 is selected in both, positions differing. -/
theorem tooniePixelRadius_max_witness :
    (∃ i : Fin demoCircles.length,
      tooniePixelRadius demoCircles = Circle.intRadius (demoCircles.get i) ∧
      (∀ j : Fin demoCircles.length, (j : ℕ) < (i : ℕ) →
        Circle.intRadius (demoCircles.get j) < Circle.intRadius (demoCircles.get i))) ∧
    (∀ c ∈ demoCircles, Circle.intRadius c ≤ tooniePixelRadius demoCircles) ∧
    tooniePixelRadius demoCirclesMoved = tooniePixelRadius demoCircles :=
  tooniePixelRadius_max demoCircles demoCirclesMoved
    (by simp [demoCircles])
    (by
      intro c hc
      rcases List.mem_cons.mp hc with h | h
      · rw [h]; norm_num [Circle.intRadius, cvRound]
      · rcases List.mem_cons.mp h with h2 | h2
        · rw [h2]; norm_num [Circle.intRadius, cvRound]
        · cases h2)
    rfl

/-- Counterexample to C10 as stated: on a circle of floating radius
10.7 the loop uses 11 (rounding to nearest), while truncation to an
integer gives 10. -/
theorem radius_rounding_not_truncation :
    tooniePixelRadius [⟨0, 0, 107/10⟩] = 11 ∧ ratTrunc (107/10 : ℚ) = 10 ∧
    tooniePixelRadius [⟨0, 0, 107/10⟩] ≠ ratTrunc (107/10 : ℚ) := by
  norm_num [tooniePixelRadius, scanMax, Circle.intRadius, cvRound, ratTrunc]

/-- C10 (amended): the radius value the loop uses, and the scale then
divides by, is the floating radius rounded to the nearest integer (the
Vec3f to Vec3i conversion rounds, ties to even); so the reported scale
is computed from the rounded integer radius of one of the detected
circles, not from its exact detected radius. -/
theorem radius_is_cvRound (cs : List Circle) (rects : List Rect) (hne : cs ≠ [])
    (hnn : ∀ c ∈ cs, 0 ≤ Circle.intRadius c) :
    ∃ c, c ∈ cs ∧ tooniePixelRadius cs = cvRound c.r ∧
      (report cs rects).cmPerPixel = fdiv Toonie_RADIUS ((cvRound c.r : ℤ) : ℚ) := by
  rcases tooniePixelRadius_spec cs hne hnn with ⟨i, he, -, -⟩
  refine ⟨cs.get i, cs.get_mem i.1 i.2, he, ?_⟩
  show fdiv Toonie_RADIUS ((tooniePixelRadius cs : ℤ) : ℚ) =
    fdiv Toonie_RADIUS ((cvRound (cs.get i).r : ℤ) : ℚ)
  rw [he]
  rfl

/-- Closed instance of radius_is_cvRound: with a single circle of
radius 10.7 the scale divides 1.325 by the rounded radius 11. -/
theorem radius_is_cvRound_witness :
    ∃ c, c ∈ [(⟨0, 0, 107/10⟩ : Circle)] ∧
      tooniePixelRadius [⟨0, 0, 107/10⟩] = cvRound c.r ∧
      (report [⟨0, 0, 107/10⟩] []).cmPerPixel =
        fdiv Toonie_RADIUS ((cvRound c.r : ℤ) : ℚ) :=
  radius_is_cvRound [⟨0, 0, 107/10⟩] [] (by simp)
    (by
      intro c hc
      rcases List.mem_cons.mp hc with h | h
      · rw [h]; norm_num [Circle.intRadius, cvRound]
      · cases h)

/-- Dividing the Toonie radius by a zero pixel radius gives positive
infinity under IEEE-754 float division. -/
theorem fdiv_toonie_zero : fdiv Toonie_RADIUS 0 = FVal.inf := by
  simp only [fdiv, Toonie_RADIUS]
  norm_num

/-- C1: when the circle transform yields the largest circle with pixel
radius R (positive) and the contour analysis selects a bounding
rectangle of pixel width W and height H, the program reports
scale = Toonie_RADIUS / R (1.325 cm over R), foot length = H times the
scale and foot width = W times the scale, exactly in the rational
model of the float arithmetic. -/
theorem measurement_formulas (cs : List Circle) (rects : List Rect) (R W H : ℤ)
    (hR : tooniePixelRadius cs = R) (hRpos : 0 < R)
    (hW : (footRect rects).width = W) (hH : (footRect rects).height = H) :
    (report cs rects).cmPerPixel = FVal.fin (Toonie_RADIUS / (R : ℚ)) ∧
    (report cs rects).footLengthCm = FVal.fin ((H : ℚ) * (Toonie_RADIUS / (R : ℚ))) ∧
    (report cs rects).footWidthCm = FVal.fin ((W : ℚ) * (Toonie_RADIUS / (R : ℚ))) := by
  have hRQ : ((R : ℤ) : ℚ) ≠ 0 := Int.cast_ne_zero.mpr (ne_of_gt hRpos)
  have h1 : (report cs rects).cmPerPixel =
      fdiv Toonie_RADIUS ((tooniePixelRadius cs : ℤ) : ℚ) := rfl
  have h2 : (report cs rects).footLengthCm =
      fmulI (footRect rects).height ((report cs rects).cmPerPixel) := rfl
  have h3 : (report cs rects).footWidthCm =
      fmulI (footRect rects).width ((report cs rects).cmPerPixel) := rfl
  have hscale : (report cs rects).cmPerPixel = FVal.fin (Toonie_RADIUS / (R : ℚ)) := by
    rw [h1, hR]
    simp only [fdiv]
    rw [if_neg hRQ]
  refine ⟨hscale, ?_, ?_⟩
  · rw [h2, hH, hscale]
    rfl
  · rw [h3, hW, hscale]
    rfl

/-- Closed instance of measurement_formulas: one circle of radius 25,
one 30 by 80 rectangle. -/
theorem measurement_formulas_witness :
    (report [⟨40, 40, 25⟩] [⟨0, 0, 30, 80⟩]).cmPerPixel =
      FVal.fin (Toonie_RADIUS / ((25 : ℤ) : ℚ)) ∧
    (report [⟨40, 40, 25⟩] [⟨0, 0, 30, 80⟩]).footLengthCm =
      FVal.fin (((80 : ℤ) : ℚ) * (Toonie_RADIUS / ((25 : ℤ) : ℚ))) ∧
    (report [⟨40, 40, 25⟩] [⟨0, 0, 30, 80⟩]).footWidthCm =
      FVal.fin (((30 : ℤ) : ℚ) * (Toonie_RADIUS / ((25 : ℤ) : ℚ))) :=
  measurement_formulas [⟨40, 40, 25⟩] [⟨0, 0, 30, 80⟩] 25 30 80
    (by norm_num [tooniePixelRadius, scanMax, Circle.intRadius, cvRound])
    (by norm_num)
    (by norm_num [footRect, scanMax, Rect.area])
    (by norm_num [footRect, scanMax, Rect.area])

/-- C9: for every positive detected pixel radius, the computed scale
multiplied back by the radius gives exactly the known physical Toonie
radius, by construction of the division. -/
theorem scale_radius_roundtrip (cs : List Circle) (rects : List Rect)
    (h : 0 < tooniePixelRadius cs) :
    fmulI (tooniePixelRadius cs) ((report cs rects).cmPerPixel) =
      FVal.fin Toonie_RADIUS := by
  have hQ : ((tooniePixelRadius cs : ℤ) : ℚ) ≠ 0 := Int.cast_ne_zero.mpr (ne_of_gt h)
  have h1 : (report cs rects).cmPerPixel =
      fdiv Toonie_RADIUS ((tooniePixelRadius cs : ℤ) : ℚ) := rfl
  rw [h1]
  simp only [fdiv]
  rw [if_neg hQ]
  simp only [fmulI]
  rw [mul_comm, div_mul_cancel₀ _ hQ]

/-- Closed instance of scale_radius_roundtrip at pixel radius 25. -/
theorem scale_radius_roundtrip_witness :
    fmulI (tooniePixelRadius [⟨0, 0, 25⟩]) ((report [⟨0, 0, 25⟩] []).cmPerPixel) =
      FVal.fin Toonie_RADIUS :=
  scale_radius_roundtrip [⟨0, 0, 25⟩] []
    (by norm_num [tooniePixelRadius, scanMax, Circle.intRadius, cvRound])

/-- C4: with zero detected circles the pixel radius keeps its sentinel
value zero, the scale divides 1.325 by zero and comes out as positive
infinity — not finite — and the report record is still fully produced,
no error value existing anywhere in the computation. -/
theorem zero_circles_infinite_scale (rects : List Rect) :
    tooniePixelRadius [] = 0 ∧
    pixels_per_metric [] = FVal.inf ∧
    (report [] rects).cmPerPixel = FVal.inf ∧
    FVal.isFinite ((report [] rects).cmPerPixel) = false := by
  have h1 : (report [] rects).cmPerPixel =
      fdiv Toonie_RADIUS ((tooniePixelRadius ([] : List Circle) : ℤ) : ℚ) := rfl
  have h2 : ((tooniePixelRadius ([] : List Circle) : ℤ) : ℚ) = 0 := by
    show ((0 : ℤ) : ℚ) = 0
    exact Int.cast_zero
  have hinf : (report [] rects).cmPerPixel = FVal.inf := by
    rw [h1, h2, fdiv_toonie_zero]
  refine ⟨rfl, ?_, hinf, ?_⟩
  · show fdiv Toonie_RADIUS ((tooniePixelRadius ([] : List Circle) : ℤ) : ℚ) = FVal.inf
    rw [h2, fdiv_toonie_zero]
  · rw [hinf]
    rfl

/-- Counterexample to C5 as stated: with zero contours and zero circles
the physical foot length is 0 times an infinite scale, which is NaN
under IEEE-754, not zero; only the pixel outputs are zero. -/
theorem zero_contours_nan_cm :
    (report [] []).footLengthPx = 0 ∧ (report [] []).footWidthPx = 0 ∧
    (report [] []).footLengthCm = FVal.nan ∧
    (report [] []).footLengthCm ≠ FVal.fin 0 := by
  have h1 : (report [] []).cmPerPixel =
      fdiv Toonie_RADIUS ((tooniePixelRadius ([] : List Circle) : ℤ) : ℚ) := rfl
  have h2 : ((tooniePixelRadius ([] : List Circle) : ℤ) : ℚ) = 0 := by
    show ((0 : ℤ) : ℚ) = 0
    exact Int.cast_zero
  have hppm : (report [] []).cmPerPixel = FVal.inf := by
    rw [h1, h2, fdiv_toonie_zero]
  have hlen : (report [] []).footLengthCm = fmulI 0 ((report [] []).cmPerPixel) := rfl
  have hnan : fmulI 0 FVal.inf = FVal.nan := rfl
  refine ⟨rfl, rfl, ?_, ?_⟩
  · rw [hlen, hppm, hnan]
  · rw [hlen, hppm, hnan]
    intro hcontra
    exact FVal.noConfusion hcontra

/-- C5 (amended): with zero contours the foot rectangle stays the
default-constructed all-zero rectangle and the report shows zero foot
length and width in pixels; the physical outputs are also zero provided
the detected pixel radius is positive so the scale is finite (with zero
circles as well, they are NaN instead, see the counterexample). -/
theorem zero_contours_zero_outputs (cs : List Circle)
    (hpos : 0 < tooniePixelRadius cs) :
    footRect [] = (⟨0, 0, 0, 0⟩ : Rect) ∧
    (report cs []).footLengthPx = 0 ∧ (report cs []).footWidthPx = 0 ∧
    (report cs []).footLengthCm = FVal.fin 0 ∧
    (report cs []).footWidthCm = FVal.fin 0 := by
  have hQ : ((tooniePixelRadius cs : ℤ) : ℚ) ≠ 0 := Int.cast_ne_zero.mpr (ne_of_gt hpos)
  have h1 : (report cs []).cmPerPixel =
      fdiv Toonie_RADIUS ((tooniePixelRadius cs : ℤ) : ℚ) := rfl
  have hppm : (report cs []).cmPerPixel =
      FVal.fin (Toonie_RADIUS / ((tooniePixelRadius cs : ℤ) : ℚ)) := by
    rw [h1]
    simp only [fdiv]
    rw [if_neg hQ]
  have hlen : (report cs []).footLengthCm = fmulI 0 ((report cs []).cmPerPixel) := rfl
  have hwid : (report cs []).footWidthCm = fmulI 0 ((report cs []).cmPerPixel) := rfl
  refine ⟨rfl, rfl, rfl, ?_, ?_⟩
  · rw [hlen, hppm]
    simp [fmulI]
  · rw [hwid, hppm]
    simp [fmulI]

/-- Closed instance of zero_contours_zero_outputs with one circle of
radius 25 and an empty contour list. -/
theorem zero_contours_zero_outputs_witness :
    footRect [] = (⟨0, 0, 0, 0⟩ : Rect) ∧
    (report [⟨0, 0, 25⟩] []).footLengthPx = 0 ∧
    (report [⟨0, 0, 25⟩] []).footWidthPx = 0 ∧
    (report [⟨0, 0, 25⟩] []).footLengthCm = FVal.fin 0 ∧
    (report [⟨0, 0, 25⟩] []).footWidthCm = FVal.fin 0 :=
  zero_contours_zero_outputs [⟨0, 0, 25⟩]
    (by norm_num [tooniePixelRadius, scanMax, Circle.intRadius, cvRound])

/-- Counterexample to C6 as stated: the HoughCircles call passes
minRadius 0, so the configured radius window accepts the radius 0 —
smaller than any positive minimum — and no positive minimum radius is
enforced. -/
theorem hough_accepts_radius_zero :
    houghCallParams.minRadius = 0 ∧ radiusAccepted houghCallParams 0 = true := by
  refine ⟨rfl, ?_⟩
  norm_num [radiusAccepted, houghCallParams]

/-- C6 (amended): the circle transform is configured with minimum
radius zero and maximum radius 30 — it rejects circles larger than the
maximum rather than enforcing a positive minimum radius — and with a
fixed minimum separation of 50 pixels between accepted circle centres. -/
theorem hough_config (r : ℚ) :
    houghCallParams.minRadius = 0 ∧ houghCallParams.maxRadius = 30 ∧
    houghCallParams.minDist = 50 ∧
    (radiusAccepted houghCallParams r = true ↔ 0 ≤ r ∧ r ≤ 30) := by
  refine ⟨rfl, rfl, rfl, ?_⟩
  simp [radiusAccepted, houghCallParams]

/-- Closed instance of hough_config at radius 10. -/
theorem hough_config_witness :
    houghCallParams.minRadius = 0 ∧ houghCallParams.maxRadius = 30 ∧
    houghCallParams.minDist = 50 ∧
    (radiusAccepted houghCallParams 10 = true ↔ (0 : ℚ) ≤ 10 ∧ (10 : ℚ) ≤ 30) :=
  hough_config 10

/-- Counterexample to C7 as stated: the stage order of the code is not
the order the claim describes — the code blurs before the HSV
conversion, not after it. -/
theorem skin_stage_order_differs : skinMaskStages ≠ specSkinMaskStages := by
  decide

/-- C7 (amended): the skin-mask stage first blurs the input colour
image, then converts to HSV, then isolates the saturation channel
(channel index 1), then applies threshold-to-zero with threshold 45:
values not above the threshold are zeroed and values above it are kept,
the threshold output being the final stage. -/
theorem skin_stage_order (v : ℚ) :
    skinMaskStages =
      [SkinStage.gaussianBlur, SkinStage.convertToHSV,
        SkinStage.extractSaturation, SkinStage.thresholdToZero] ∧
    saturationChannelIndex = 1 ∧ skinThreshold = 45 ∧
    (v ≤ skinThreshold → threshToZero skinThreshold v = 0) ∧
    (skinThreshold < v → threshToZero skinThreshold v = v) := by
  refine ⟨rfl, rfl, rfl, ?_, ?_⟩
  · intro hv
    simp [threshToZero, not_lt.mpr hv]
  · intro hv
    simp [threshToZero, hv]

/-- Closed instance of skin_stage_order: a pixel at the threshold is
zeroed, a pixel above it is kept. -/
theorem skin_stage_order_witness :
    threshToZero skinThreshold 45 = 0 ∧ threshToZero skinThreshold 46 = 46 :=
  ⟨(skin_stage_order 45).2.2.2.1 (by norm_num [skinThreshold]),
    (skin_stage_order 46).2.2.2.2 (by norm_num [skinThreshold])⟩

/-- Counterexample to C8 as stated: with two detected circles the
selected coin radius is 20, yet the circle of radius 10 at centre
(50, 50) is drawn too — the loop draws every detected circle. -/
theorem renderer_draws_nonselected_circle :
    tooniePixelRadius demoCircles = 20 ∧
    DrawCmd.circleOutline 50 50 10 ∈ drawOnOriginal demoCircles [⟨0, 0, 3, 4⟩] := by
  constructor
  · norm_num [tooniePixelRadius, demoCircles, scanMax, Circle.intRadius, cvRound]
  · have hmem : (⟨50, 50, 10⟩ : Circle) ∈ demoCircles := by
      show (⟨50, 50, 10⟩ : Circle) ∈ [(⟨5, 5, 20⟩ : Circle), ⟨50, 50, 10⟩]
      exact List.mem_cons_of_mem _ (List.mem_cons_self _ _)
    have h : DrawCmd.circleOutline (cvRound ((50 : ℚ))) (cvRound ((50 : ℚ)))
        (cvRound ((10 : ℚ))) ∈ drawOnOriginal demoCircles [⟨0, 0, 3, 4⟩] := by
      apply List.mem_append_left
      exact List.mem_map_of_mem _ hmem
    have h50 : cvRound ((50 : ℚ)) = 50 := by norm_num [cvRound]
    have h10 : cvRound ((10 : ℚ)) = 10 := by norm_num [cvRound]
    rw [h50, h10] at h
    exact h

/-- C8 (amended): the renderer draws onto the original raster the
detected foot rectangle, one outline for EVERY detected circle (the
drawing happens inside the selection loop, so non-selected circles are
drawn as well), and the caption text — nothing else. -/
theorem renderer_draw_set (cs : List Circle) (rects : List Rect) :
    (∀ c ∈ cs, DrawCmd.circleOutline (cvRound c.x) (cvRound c.y) (cvRound c.r) ∈
      drawOnOriginal cs rects) ∧
    DrawCmd.rectOutline (footRect rects) ∈ drawOnOriginal cs rects ∧
    (drawOnOriginal cs rects).length = cs.length + 2 := by
  refine ⟨?_, ?_, ?_⟩
  · intro c hc
    exact List.mem_append_left _ (List.mem_map_of_mem _ hc)
  · apply List.mem_append_right
    simp
  · simp [drawOnOriginal]

/-- Closed instance of renderer_draw_set on demoCircles: both circles
are drawn and the command list holds two circles, the rectangle and the
caption. -/
theorem renderer_draw_set_witness :
    DrawCmd.circleOutline (cvRound 5) (cvRound 5) (cvRound 20) ∈
      drawOnOriginal demoCircles [⟨0, 0, 3, 4⟩] ∧
    (drawOnOriginal demoCircles [⟨0, 0, 3, 4⟩]).length = demoCircles.length + 2 :=
  ⟨(renderer_draw_set demoCircles [⟨0, 0, 3, 4⟩]).1 ⟨5, 5, 20⟩ (by simp [demoCircles]),
    (renderer_draw_set demoCircles [⟨0, 0, 3, 4⟩]).2.2⟩

end Hwael
